import Mathlib

/-!
Shallow embedding of `cache.js` (multi-level cache with LRU/LFU levels).

Modelling choices, all taken directly from the JavaScript source:

* JS `Map` is an insertion-ordered association list; `Map.set` on an existing
  key updates the value in place (keeping the key's position), otherwise it
  appends; `Map.delete` removes the entry; iteration follows insertion order.
* Keys and values as they occur in the stores are JS strings or `undefined`
  (the `evict` of an empty LRU level produces `{ key: undefined, value:
  undefined }`), so both are modelled as `Option String` with `none` standing
  for `undefined`.  A returned `null` is the outer `none` of an
  `Option (Option String)`.
* Each `CacheLevel` owns an `async-mutex` `Mutex`, which is not re-entrant:
  acquiring a mutex that the current chain of `await`s already holds never
  resolves.  The interpreter threads an explicit list `held` of held mutexes
  (identified by heap id) and answers `Res.deadlock` when a held mutex is
  re-acquired; `maxHeld` records the largest number of locks held at once.
* Levels are heap-allocated objects: `lowerCache` pointers are heap ids, and
  removing a level from the chain's `cacheLevels` array does not destroy the
  object, so a stale `lowerCache` pointer can still reach it — exactly as in
  JS, where `splice` does not touch the neighbours' references.
* The interpreter is fuel-indexed; `Res.fuelOut` is an artefact of the
  embedding and is never produced when enough fuel is supplied.
* `Res.exn` models a thrown JS exception carrying its message.
-/

namespace MLC

/-- A JS string-or-`undefined`; `none` is `undefined`. -/
abbrev JStr := Option String

/-- Keys stored in a level's `cache` map. -/
abbrev Key := JStr

/-- Values stored in a level's `cache` map. -/
abbrev Val := JStr

/-- The object `{ key, value }` returned by `CacheLevel.evict`. -/
structure Entry where
  key : Key
  value : Val
deriving Repr, DecidableEq, Inhabited

/-- `Map.prototype.has`. -/
def mapHas (m : List (Key × α)) (k : Key) : Bool :=
  m.any (fun p => p.1 == k)

/-- `Map.prototype.get` (`none` = JS `undefined`). -/
def mapGet (m : List (Key × α)) (k : Key) : Option α :=
  (m.find? (fun p => p.1 == k)).map Prod.snd

/-- `Map.prototype.set`: update in place if present (keeping position),
append otherwise. -/
def mapSet (m : List (Key × α)) (k : Key) (v : α) : List (Key × α) :=
  if mapHas m k then m.map (fun p => if p.1 == k then (k, v) else p)
  else m ++ [(k, v)]

/-- `Map.prototype.delete`. -/
def mapDelete (m : List (Key × α)) (k : Key) : List (Key × α) :=
  m.filter (fun p => p.1 != k)

/-- `Map.prototype.size`. -/
def mapSize (m : List (Key × α)) : Nat :=
  m.length

/-- One `CacheLevel` object.  `size` is the capacity (a JS number, which the
constructor never validates, hence `Int`); `evictionPolicy` is the raw string
passed to the constructor; `lowerCache` is a heap id or `none` (JS `null`). -/
structure CacheLevel where
  size : Int
  evictionPolicy : String
  cache : List (Key × Val)
  accessCount : List (Key × Nat)
  lowerCache : Option Nat
deriving Repr, DecidableEq, Inhabited

/-- Whole-program state: the heap of every `CacheLevel` object ever created
(heap id = index), the chain's `cacheLevels` array of heap ids, plus the lock
bookkeeping of the current chain of `await`s. -/
structure St where
  heap : List CacheLevel
  cacheLevels : List Nat
  held : List Nat
  maxHeld : Nat
deriving Repr, DecidableEq, Inhabited

/-- Outcome of running an `async` operation: normal completion with the new
state, a permanently pending promise (re-acquired non-re-entrant mutex), a
thrown exception, or interpreter fuel exhaustion (embedding artefact). -/
inductive Res (α : Type) where
  | ok (a : α) (st : St)
  | deadlock
  | exn (msg : String)
  | fuelOut
deriving Repr, DecidableEq

/-- Dereference a heap id. -/
def getLvl (st : St) (id : Nat) : CacheLevel :=
  st.heap.getD id default

/-- Overwrite a heap cell. -/
def setLvl (st : St) (id : Nat) (lvl : CacheLevel) : St :=
  { st with heap := st.heap.set id lvl }

/-- `await this.mutex.acquire()`: `none` when the mutex is already held by
the current chain of `await`s (the promise never resolves). -/
def acquire (st : St) (id : Nat) : Option St :=
  if id ∈ st.held then none
  else some { st with
    held := id :: st.held
    maxHeld := max st.maxHeld (st.held.length + 1) }

/-- `release()` from the `finally` block. -/
def release (st : St) (id : Nat) : St :=
  { st with held := st.held.erase id }

/-- JS truthiness of a `get` result (`null`/`undefined`/`""` are falsy). -/
def truthyVal (v : Option Val) : Bool :=
  match v with
  | some (some s) => s != ""
  | _ => false

/-- JS truthiness of the `leastFrequentKey` local in LFU `evict`
(`null`/`undefined`/`""` are falsy). -/
def truthyKey (k : Option Key) : Bool :=
  match k with
  | some (some s) => s != ""
  | _ => false

/-- The LFU scan `for (let [key, freq] of this.accessCount) if (freq <
minFrequency) ...`, with `minFrequency` starting at `Infinity` (`none`). -/
def lfuScan : List (Key × Nat) → Option Key → Option Nat → Option Key
  | [], least, _ => least
  | (k, f) :: rest, least, min =>
    if (match min with | none => true | some m => f < m) then
      lfuScan rest (some k) (some f)
    else
      lfuScan rest least min

/-- `CacheLevel.evict` (pure on the level: it takes no lock and touches no
other object).  Note the LRU branch always returns an entry object — on an
empty cache it is `{ key: undefined, value: undefined }` — while the LFU
branch returns `null` whenever the selected key is falsy. -/
def evictLevel (lvl : CacheLevel) : Option Entry × CacheLevel :=
  if lvl.evictionPolicy == "LRU" then
    let oldestKey : Key :=
      match lvl.cache.head? with
      | some p => p.1
      | none => none
    let value : Val := (mapGet lvl.cache oldestKey).getD none
    (some ⟨oldestKey, value⟩, { lvl with cache := mapDelete lvl.cache oldestKey })
  else if lvl.evictionPolicy == "LFU" then
    match lfuScan lvl.accessCount none none with
    | some k =>
      if truthyKey (some k) then
        let value : Val := (mapGet lvl.cache k).getD none
        (some ⟨k, value⟩,
          { lvl with
            cache := mapDelete lvl.cache k
            accessCount := mapDelete lvl.accessCount k })
      else (none, lvl)
    | none => (none, lvl)
  else (none, lvl)

mutual

/-- `CacheLevel.get(key)`, faithful to the source: on a local miss it recurses
into `lowerCache.get` and, when the lower value is truthy, calls `this.put`
while still holding its own mutex. -/
def levelGet : Nat → Nat → Key → St → Res (Option Val)
  | 0, _, _, _ => .fuelOut
  | Nat.succ fuel, id, key, st =>
    match acquire st id with
    | none => .deadlock
    | some st1 =>
      let lvl := getLvl st1 id
      if mapHas lvl.cache key then
        let value : Val := (mapGet lvl.cache key).getD none
        let st2 :=
          if lvl.evictionPolicy == "LRU" then
            setLvl st1 id { lvl with cache := mapSet (mapDelete lvl.cache key) key value }
          else if lvl.evictionPolicy == "LFU" then
            setLvl st1 id
              { lvl with
                accessCount :=
                  mapSet lvl.accessCount key (((mapGet lvl.accessCount key).getD 0) + 1) }
          else st1
        .ok (some value) (release st2 id)
      else
        match lvl.lowerCache with
        | some lid =>
          match levelGet fuel lid key st1 with
          | .ok lowerValue st2 =>
            if truthyVal lowerValue then
              match lowerValue with
              | some lv =>
                match levelPut fuel id key lv st2 with
                | .ok _ st3 => .ok (some lv) (release st3 id)
                | .deadlock => .deadlock
                | .exn m => .exn m
                | .fuelOut => .fuelOut
              | none => .ok none (release st2 id)
            else .ok none (release st2 id)
          | .deadlock => .deadlock
          | .exn m => .exn m
          | .fuelOut => .fuelOut
        | none => .ok none (release st1 id)

/-- `CacheLevel.put(key, value)`, faithful to the source: whenever
`cache.size >= this.size` it evicts and, if an entry came back and a lower
level exists, forwards it by calling `lowerCache.put` while still holding its
own mutex; only then does it set the new entry. -/
def levelPut : Nat → Nat → Key → Val → St → Res Unit
  | 0, _, _, _, _ => .fuelOut
  | Nat.succ fuel, id, key, value, st =>
    match acquire st id with
    | none => .deadlock
    | some st1 =>
      let lvl := getLvl st1 id
      let afterEvict : Res Unit :=
        if lvl.size ≤ (mapSize lvl.cache : Int) then
          let st2 := setLvl st1 id (evictLevel lvl).2
          match (evictLevel lvl).1 with
          | some e =>
            match lvl.lowerCache with
            | some lid =>
              match levelPut fuel lid e.key e.value st2 with
              | .ok _ st3 => .ok () st3
              | .deadlock => .deadlock
              | .exn m => .exn m
              | .fuelOut => .fuelOut
            | none => .ok () st2
          | none => .ok () st2
        else .ok () st1
      match afterEvict with
      | .ok _ stE =>
        let lvlE := getLvl stE id
        let stSet := setLvl stE id { lvlE with cache := mapSet lvlE.cache key value }
        let lvlS := getLvl stSet id
        let stFin :=
          if lvlS.evictionPolicy == "LFU" then
            setLvl stSet id
              { lvlS with
                accessCount := mapSet lvlS.accessCount key ((mapGet lvlS.accessCount key).getD 0) }
          else stSet
        .ok () (release stFin id)
      | .deadlock => .deadlock
      | .exn m => .exn m
      | .fuelOut => .fuelOut

end

/-- The promotion loop `for (let j = i - 1; j >= 0; j--) cacheLevels[j].put`,
applied to an already-reversed list of level ids. -/
def promoteAll : Nat → List Nat → Key → Val → St → Res Unit
  | _, [], _, _, st => .ok () st
  | fuel, id :: ids, key, value, st =>
    match levelPut fuel id key value st with
    | .ok _ st1 => promoteAll fuel ids key value st1
    | .deadlock => .deadlock
    | .exn m => .exn m
    | .fuelOut => .fuelOut

/-- JS string interpolation of a key (`undefined` prints as "undefined"). -/
def keyStr : Key → String
  | some s => s
  | none => "undefined"

/-- The exception message of `this.cacheLevels[0].put(...)` on an empty
chain. -/
def typeErrMsg : String :=
  "TypeError: Cannot read properties of undefined (reading 'put')"

/-- `MultiLevelCache.put(key, value)`: always targets `cacheLevels[0]`; on an
empty chain this dereferences `undefined` and throws. -/
def chainPut (fuel : Nat) (st : St) (key : Key) (value : Val) : Res Unit :=
  match st.cacheLevels.head? with
  | none => .exn typeErrMsg
  | some id0 => levelPut fuel id0 key value st

/-- `MultiLevelCache.fetchFromMainMemory(key)`. -/
def fetchFromMainMemory (fuel : Nat) (st : St) (key : Key) : Res Val :=
  let value : Val := some ("data for " ++ keyStr key)
  match chainPut fuel st key value with
  | .ok _ st1 => .ok value st1
  | .deadlock => .deadlock
  | .exn m => .exn m
  | .fuelOut => .fuelOut

/-- The level scan of `MultiLevelCache.get`: `above` holds the ids already
passed (chain order), `rest` the ids still to try. -/
def chainGetLoop : Nat → List Nat → List Nat → Key → St → Res Val
  | fuel, _, [], key, st => fetchFromMainMemory fuel st key
  | fuel, above, id :: rest, key, st =>
    match levelGet fuel id key st with
    | .ok value st1 =>
      match value with
      | some v =>
        match promoteAll fuel above.reverse key v st1 with
        | .ok _ st2 => .ok v st2
        | .deadlock => .deadlock
        | .exn m => .exn m
        | .fuelOut => .fuelOut
      | none => chainGetLoop fuel (above ++ [id]) rest key st1
    | .deadlock => .deadlock
    | .exn m => .exn m
    | .fuelOut => .fuelOut

/-- `MultiLevelCache.get(key)`. -/
def chainGet (fuel : Nat) (st : St) (key : Key) : Res Val :=
  chainGetLoop fuel [] st.cacheLevels key st

/-- `CacheLevel.setLowerCache`, applied through the heap. -/
def setLower (heap : List CacheLevel) (id : Nat) (l : Option Nat) : List CacheLevel :=
  heap.set id { heap.getD id default with lowerCache := l }

/-- `MultiLevelCache.addCacheLevel(size, evictionPolicy)`: validates only the
policy, allocates a fresh level, links the previous bottom level to it, and
appends it to `cacheLevels`. -/
def addCacheLevel (st : St) (size : Int) (evictionPolicy : String) :
    Except String St :=
  if evictionPolicy ≠ "LRU" ∧ evictionPolicy ≠ "LFU" then
    .error "Eviction policy must be LRU or LFU"
  else
    let newId := st.heap.length
    let heap1 := st.heap ++ [⟨size, evictionPolicy, [], [], none⟩]
    let heap2 :=
      match st.cacheLevels.getLast? with
      | some lastId => setLower heap1 lastId (some newId)
      | none => heap1
    .ok { st with heap := heap2, cacheLevels := st.cacheLevels ++ [newId] }

/-- The re-link loop of `removeCacheLevel`: it runs over
`cacheLevels[level..]` (after the splice), setting each level's `lowerCache`
to its successor and the last one's to `null`.  Indices below `level` — in
particular the removed level's predecessor — are never touched, exactly as in
the source. -/
def relinkSeq : List CacheLevel → List Nat → List CacheLevel
  | heap, [] => heap
  | heap, [id] => setLower heap id none
  | heap, id :: id2 :: rest => relinkSeq (setLower heap id (some id2)) (id2 :: rest)

/-- `MultiLevelCache.removeCacheLevel(level)`. -/
def removeCacheLevel (st : St) (level : Int) : Except String St :=
  if 0 ≤ level ∧ level < (st.cacheLevels.length : Int) then
    let ids := st.cacheLevels.eraseIdx level.toNat
    let heap2 := relinkSeq st.heap (ids.drop level.toNat)
    .ok { st with heap := heap2, cacheLevels := ids }
  else
    .error "Invalid cache level index"

/-- Whether an `Except` run succeeded. -/
def isOkE (e : Except String St) : Bool :=
  match e with
  | .ok _ => true
  | .error _ => false

/-- Whether a `Res` is a thrown exception. -/
def isExn (r : Res α) : Bool :=
  match r with
  | .exn _ => true
  | _ => false

/-- Whether a `Res` is a thrown exception with the given message. -/
def isExnMsg (r : Res α) (msg : String) : Bool :=
  match r with
  | .exn m => m == msg
  | _ => false

/-- Extract the final state of a successful `Except` run (`default`
otherwise; concrete theorems below always pin the successful case). -/
def exSt (e : Except String St) : St :=
  match e with
  | .ok s => s
  | .error _ => default

/-- Extract the final state of a successful `Res` run (`default` otherwise;
concrete theorems below always pin the successful case). -/
def resSt (r : Res α) : St :=
  match r with
  | .ok _ s => s
  | _ => default

/-- The chain as constructed by `new MultiLevelCache()`. -/
def emptySt : St := ⟨[], [], [], 0⟩

end MLC

namespace MLC

/-! ### Generic lemmas about the JS `Map` model -/

theorem mapGet_cons {α : Type} (p : Key × α) (rest : List (Key × α)) (k : Key) :
    mapGet (p :: rest) k = if p.1 == k then some p.2 else mapGet rest k := by
  by_cases hp : p.1 == k <;> simp [mapGet, List.find?, hp]

theorem mapHas_cons {α : Type} (p : Key × α) (rest : List (Key × α)) (k : Key) :
    mapHas (p :: rest) k = ((p.1 == k) || mapHas rest k) := by
  simp [mapHas]

theorem mapGet_append_single {α : Type} (m : List (Key × α)) (k : Key) (v : α)
    (h : mapHas m k = false) : mapGet (m ++ [(k, v)]) k = some v := by
  induction m with
  | nil => simp [mapGet, List.find?]
  | cons p rest ih =>
    rw [mapHas_cons] at h
    simp only [Bool.or_eq_false_iff] at h
    rw [List.cons_append, mapGet_cons, if_neg (by simp [h.1]), ih h.2]

theorem mapGet_mapUpdate {α : Type} (m : List (Key × α)) (k : Key) (v : α)
    (h : mapHas m k = true) :
    mapGet (m.map (fun p => if p.1 == k then (k, v) else p)) k = some v := by
  induction m with
  | nil => simp [mapHas] at h
  | cons p rest ih =>
    by_cases hp : p.1 == k
    · simp only [List.map_cons, if_pos hp]
      rw [mapGet_cons]
      simp
    · have hp' : (p.1 == k) = false := by simpa using hp
      rw [mapHas_cons, hp', Bool.false_or] at h
      simp only [List.map_cons, if_neg hp]
      rw [mapGet_cons, if_neg hp, ih h]

theorem mapGet_mapSet_self {α : Type} (m : List (Key × α)) (k : Key) (v : α) :
    mapGet (mapSet m k v) k = some v := by
  rw [mapSet]
  by_cases h : mapHas m k
  · rw [if_pos h]
    exact mapGet_mapUpdate m k v h
  · rw [if_neg h]
    exact mapGet_append_single m k v (by simpa using h)

end MLC

namespace MLC

/-! ### `CacheLevel.get` / `CacheLevel.put` never throw -/

theorem no_exn_levelOps : ∀ fuel : Nat,
    (∀ id k st, isExn (levelGet fuel id k st) = false) ∧
    (∀ id k v st, isExn (levelPut fuel id k v st) = false) := by
  intro fuel
  induction fuel with
  | zero => exact ⟨fun _ _ _ => rfl, fun _ _ _ _ => rfl⟩
  | succ n ih =>
    constructor
    · intro id k st
      rw [levelGet]
      cases hacq : acquire st id with
      | none => rfl
      | some st1 =>
        dsimp only
        by_cases hh : mapHas (getLvl st1 id).cache k
        · rw [if_pos hh]
          rfl
        · rw [if_neg hh]
          cases hlow : (getLvl st1 id).lowerCache with
          | none => rfl
          | some lid =>
            dsimp only
            cases hg : levelGet n lid k st1 with
            | ok lowerValue st2 =>
              dsimp only
              by_cases ht : truthyVal lowerValue
              · rw [if_pos ht]
                cases lowerValue with
                | none => rfl
                | some lv =>
                  dsimp only
                  cases hp : levelPut n id k lv st2 with
                  | ok a st3 => rfl
                  | deadlock => rfl
                  | exn m =>
                    have hfree := (ih.2) id k lv st2
                    rw [hp] at hfree
                    exact absurd hfree (by simp [isExn])
                  | fuelOut => rfl
              · rw [if_neg ht]
                rfl
            | deadlock => rfl
            | exn m =>
              have hfree := (ih.1) lid k st1
              rw [hg] at hfree
              exact absurd hfree (by simp [isExn])
            | fuelOut => rfl
    · intro id k v st
      rw [levelPut]
      cases hacq : acquire st id with
      | none => rfl
      | some st1 =>
        dsimp only
        by_cases hsz : (getLvl st1 id).size ≤ (mapSize (getLvl st1 id).cache : Int)
        · rw [if_pos hsz]
          cases hev : (evictLevel (getLvl st1 id)).1 with
          | none => rfl
          | some e =>
            cases hlow : (getLvl st1 id).lowerCache with
            | none => rfl
            | some lid =>
              dsimp only
              cases hp : levelPut n lid e.key e.value
                  (setLvl st1 id (evictLevel (getLvl st1 id)).2) with
              | ok a st3 => rfl
              | deadlock => rfl
              | exn m =>
                have hfree := (ih.2) lid e.key e.value
                  (setLvl st1 id (evictLevel (getLvl st1 id)).2)
                rw [hp] at hfree
                exact absurd hfree (by simp [isExn])
              | fuelOut => rfl
        · rw [if_neg hsz]
          rfl

end MLC

namespace MLC

theorem no_exn_promoteAll : ∀ (ids : List Nat) (fuel : Nat) (k : Key) (v : Val) (st : St),
    isExn (promoteAll fuel ids k v st) = false := by
  intro ids
  induction ids with
  | nil => intro fuel k v st; rfl
  | cons id rest ih =>
    intro fuel k v st
    rw [promoteAll]
    cases hp : levelPut fuel id k v st with
    | ok a st1 => exact ih fuel k v st1
    | deadlock => rfl
    | exn m =>
      have hfree := (no_exn_levelOps fuel).2 id k v st
      rw [hp] at hfree
      exact absurd hfree (by simp [isExn])
    | fuelOut => rfl

theorem chainPut_exn_msg (fuel : Nat) (st : St) (k : Key) (v : Val) (m : String)
    (h : chainPut fuel st k v = Res.exn m) : m = typeErrMsg := by
  rw [chainPut] at h
  cases hh : st.cacheLevels.head? with
  | none =>
    rw [hh] at h
    dsimp only at h
    exact (Res.exn.inj h).symm
  | some id0 =>
    rw [hh] at h
    dsimp only at h
    have hfree := (no_exn_levelOps fuel).2 id0 k v st
    rw [h] at hfree
    exact absurd hfree (by simp [isExn])

theorem fetchFromMainMemory_exn_msg (fuel : Nat) (st : St) (k : Key) (m : String)
    (h : fetchFromMainMemory fuel st k = Res.exn m) : m = typeErrMsg := by
  rw [fetchFromMainMemory] at h
  cases hp : chainPut fuel st k (some ("data for " ++ keyStr k)) with
  | ok a st1 => rw [hp] at h; exact absurd h (by simp)
  | deadlock => rw [hp] at h; exact absurd h (by simp)
  | exn m2 =>
    rw [hp] at h
    dsimp only at h
    have h2 : m2 = m := Res.exn.inj h
    exact h2 ▸ chainPut_exn_msg fuel st k _ m2 hp
  | fuelOut => rw [hp] at h; exact absurd h (by simp)

theorem chainGetLoop_exn_msg : ∀ (rest : List Nat) (fuel : Nat) (above : List Nat)
    (k : Key) (st : St) (m : String),
    chainGetLoop fuel above rest k st = Res.exn m → m = typeErrMsg := by
  intro rest
  induction rest with
  | nil =>
    intro fuel above k st m h
    rw [chainGetLoop] at h
    exact fetchFromMainMemory_exn_msg fuel st k m h
  | cons id rest2 ih =>
    intro fuel above k st m h
    rw [chainGetLoop] at h
    cases hg : levelGet fuel id k st with
    | ok value st1 =>
      rw [hg] at h
      dsimp only at h
      cases value with
      | some v =>
        dsimp only at h
        cases hpr : promoteAll fuel above.reverse k v st1 with
        | ok a st2 => rw [hpr] at h; exact absurd h (by simp)
        | deadlock => rw [hpr] at h; exact absurd h (by simp)
        | exn m2 =>
          have hfree := no_exn_promoteAll above.reverse fuel k v st1
          rw [hpr] at hfree
          exact absurd hfree (by simp [isExn])
        | fuelOut => rw [hpr] at h; exact absurd h (by simp)
      | none => exact ih fuel (above ++ [id]) k st1 m h
    | deadlock => rw [hg] at h; exact absurd h (by simp)
    | exn m2 =>
      have hfree := (no_exn_levelOps fuel).1 id k st
      rw [hg] at hfree
      exact absurd hfree (by simp [isExn])
    | fuelOut => rw [hg] at h; exact absurd h (by simp)

theorem chainGet_exn_msg (fuel : Nat) (st : St) (k : Key) (m : String)
    (h : chainGet fuel st k = Res.exn m) : m = typeErrMsg := by
  exact chainGetLoop_exn_msg st.cacheLevels fuel [] k st m h

end MLC

namespace MLC

/-! ### Concrete scenarios

Each `cNx` state is the chain state reached by the indicated sequence of
engine calls, extracted with `exSt`/`resSt`; the theorems pin down the
successful (or failing) outcome of every step. -/

/-- Two linked levels; the key lives only in the lower one. -/
def c1St : St :=
  ⟨[⟨2, "LRU", [], [], some 1⟩, ⟨2, "LRU", [(some "k", some "v")], [], none⟩],
    [0, 1], [], 0⟩

/-- Two linked levels, both missing the key. -/
def c1MissSt : St :=
  ⟨[⟨2, "LRU", [], [], some 1⟩, ⟨2, "LRU", [], [], none⟩], [0, 1], [], 0⟩

/-- `addCacheLevel(1, LRU)` three times, then `put(a, 1)` (fills level 0),
then `removeCacheLevel(1)`, then `put(b, 2)` (demotes `a`). -/
def c2a : St := exSt (addCacheLevel emptySt 1 "LRU")

def c2b : St := exSt (addCacheLevel c2a 1 "LRU")

def c2c : St := exSt (addCacheLevel c2b 1 "LRU")

def c2d : St := resSt (chainPut 5 c2c (some "a") (some "1"))

def c2e : St := exSt (removeCacheLevel c2d 1)

def c2f : St := resSt (chainPut 5 c2e (some "b") (some "2"))

/-- Two linked one-slot levels, level 0 full: a chain `put` must cascade. -/
def c3PutSt : St :=
  ⟨[⟨1, "LRU", [(some "a", some "1")], [], some 1⟩, ⟨1, "LRU", [], [], none⟩],
    [0, 1], [], 0⟩

/-- Two linked levels; the key lives only in level 1: a chain `get` hits the
recursive promotion path of `CacheLevel.get`. -/
def c3GetSt : St :=
  ⟨[⟨1, "LRU", [], [], some 1⟩, ⟨1, "LRU", [(some "k", some "v")], [], none⟩],
    [0, 1], [], 0⟩

/-- Level 0 (capacity 1) already holds key `a`; level 1 is empty. -/
def c4St : St :=
  ⟨[⟨1, "LRU", [(some "a", some "1")], [], some 1⟩, ⟨1, "LRU", [], [], none⟩],
    [0, 1], [], 0⟩

/-- A single LFU level of capacity 1: `put("", 1)`, then `put("x", 2)`. -/
def c5St : St := ⟨[⟨1, "LFU", [], [], none⟩], [0], [], 0⟩

def c5a : St := resSt (levelPut 2 0 (some "") (some "1") c5St)

def c5b : St := resSt (levelPut 2 0 (some "x") (some "2") c5a)

/-- A single empty LRU level for the all-miss chain `get`. -/
def c6OneSt : St := ⟨[⟨2, "LRU", [], [], none⟩], [0], [], 0⟩

/-- Single LRU level, capacity 2: `put(a,1); put(b,2); get(a); put(c,3)`. -/
def c7St : St := ⟨[⟨2, "LRU", [], [], none⟩], [0], [], 0⟩

def c7a : St := resSt (levelPut 2 0 (some "a") (some "1") c7St)

def c7b : St := resSt (levelPut 2 0 (some "b") (some "2") c7a)

def c7c : St := resSt (levelGet 2 0 (some "a") c7b)

def c7d : St := resSt (levelPut 2 0 (some "c") (some "3") c7c)

/-- Single LFU level, capacity 2:
`put(a,1); put(b,2); get(a); get(a); put(c,3)`, then an overwrite of `a`. -/
def c8St : St := ⟨[⟨2, "LFU", [], [], none⟩], [0], [], 0⟩

def c8a : St := resSt (levelPut 2 0 (some "a") (some "1") c8St)

def c8b : St := resSt (levelPut 2 0 (some "b") (some "2") c8a)

def c8c : St := resSt (levelGet 2 0 (some "a") c8b)

def c8d : St := resSt (levelGet 2 0 (some "a") c8c)

def c8e : St := resSt (levelPut 2 0 (some "c") (some "3") c8d)

def c8h : St := resSt (levelPut 2 0 (some "a") (some "9") c8e)

/-- Single LFU level, capacity 1, whose minimum-frequency key is the falsy
string `""`. -/
def c8f1 : St :=
  resSt (levelPut 2 0 (some "") (some "1") ⟨[⟨1, "LFU", [], [], none⟩], [0], [], 0⟩)

def c8f2 : St := resSt (levelPut 2 0 (some "x") (some "2") c8f1)

/-- `addCacheLevel(0, "LRU")` on a fresh chain, then `put(k, v)`. -/
def c10a : St := exSt (addCacheLevel emptySt 0 "LRU")

def c10b : St := resSt (levelPut 2 0 (some "k") (some "v") c10a)

end MLC

namespace MLC

/-! ### Claim theorems -/

/-- Claim C1 (refuted by the code, so this theorem documents the divergence):
on a two-level chain where the key lives only in the lower level,
`CacheLevel.get` on level 0 does not return absent — it reaches into the
lower level and then blocks forever re-acquiring its own mutex inside
`this.put`; and even when both levels miss, level 0's `get` acquires the
lower level's lock (two locks held at once, `maxHeld = 2`), i.e. it does
read from the lower level rather than returning absent from its own store
alone. -/
theorem levelGet_touches_lower_and_deadlocks :
    levelGet 5 0 (some "k") c1St = Res.deadlock ∧
    levelGet 5 0 (some "k") c1MissSt = Res.ok none ⟨c1MissSt.heap, [0, 1], [], 2⟩ := by
  constructor
  · decide
  · decide

/-- Claim C2 (refuted by the code, so this theorem documents the divergence):
after building a three-level chain, filling level 0 with `a` and calling
`removeCacheLevel(1)`, the removal reports success and the levels array is
`[0, 2]`, but level 0's `lowerCache` still points at the removed heap object
`1`; the next demotion from level 0 (`put(b, 2)`) lands `a` in the removed
level (heap id 1) while the true successor (heap id 2) stays empty. -/
theorem removeCacheLevel_stale_predecessor_link :
    isOkE (removeCacheLevel c2d 1) = true ∧
    c2e.cacheLevels = [0, 2] ∧
    (getLvl c2e 0).lowerCache = some 1 ∧
    1 ∉ c2e.cacheLevels ∧
    (getLvl c2f 1).cache = [(some "a", some "1")] ∧
    (getLvl c2f 2).cache = [] := by
  refine ⟨by decide, by decide, by decide, by decide, by decide, by decide⟩

/-- Claim C3 (refuted by the code, so this theorem documents the divergence):
a chain `put` that demotes an evicted entry holds level 0's and level 1's
locks simultaneously (`maxHeld = 2`), and a chain `get` whose key lives only
in level 1 never completes: level 0's `get` re-enters its own mutex via
`this.put` and blocks forever. -/
theorem chain_ops_nest_locks_and_deadlock :
    (resSt (chainPut 5 c3PutSt (some "b") (some "2"))).maxHeld = 2 ∧
    chainGet 6 c3GetSt (some "k") = Res.deadlock := by
  constructor
  · decide
  · decide

/-- Claim C4 counterexample: with level 0 at capacity 1 already holding key
`a` and an empty level 1 below it, overwriting `a` (`put(a, 2)`) does
trigger an eviction — the old entry `(a, 1)` is pushed into level 1 — even
though the key was already present; and the evicted entry is forwarded
directly rather than returned (the JS `put` returns `undefined`). -/
theorem put_overwrite_at_capacity_evicts :
    levelPut 3 0 (some "a") (some "2") c4St =
      Res.ok ()
        ⟨[⟨1, "LRU", [(some "a", some "2")], [], some 1⟩,
          ⟨1, "LRU", [(some "a", some "1")], [], none⟩], [0, 1], [], 2⟩ := by
  decide

/-- Claim C5 (refuted by the code, so this theorem documents the divergence):
a single LFU level with positive capacity 1 ends a completed `put` with two
entries in its store: `put("", 1); put("x", 2)` — the eviction step selects
the falsy key `""` and the `if (leastFrequentKey)` guard then skips the
eviction entirely, so the insert pushes the store above capacity. -/
theorem lfu_falsy_key_exceeds_capacity :
    (getLvl c5b 0).size = 1 ∧
    mapSize (getLvl c5b 0).cache = 2 ∧
    (getLvl c5b 0).cache = [(some "", some "1"), (some "x", some "2")] := by
  refine ⟨by decide, by decide, by decide⟩

/-- Claim C6 (refuted by the code on the empty chain, so this theorem
documents the divergence): on a chain with zero levels, `get` throws a
`TypeError` (the fallback path calls `this.cacheLevels[0].put` on
`undefined`) instead of returning the synthesized value; on a one-level
all-miss chain the claim's behaviour does hold — the synthesized value is
returned and is then present at level 0. -/
theorem chainGet_empty_chain_throws :
    chainGet 5 emptySt (some "k") = Res.exn typeErrMsg ∧
    chainGet 5 c6OneSt (some "k") =
      Res.ok (some "data for k")
        ⟨[⟨2, "LRU", [(some "k", some "data for k")], [], none⟩], [0], [], 1⟩ := by
  constructor
  · decide
  · decide

/-- Claim C7 (confirmed): on a single LRU level of capacity 2, the sequence
`put(a,1); put(b,2); get(a); put(c,3)` evicts exactly `b` — the final store
is `[a, c]` in recency order, with `b` gone. -/
theorem lru_sequence_evicts_least_recent :
    (getLvl c7d 0).cache = [(some "a", some "1"), (some "c", some "3")] ∧
    mapHas (getLvl c7d 0).cache (some "b") = false := by
  refine ⟨by decide, by decide⟩

/-- Claim C8 (the concrete LFU example and the frequency bookkeeping hold,
but the eviction sub-claim is refuted on falsy keys): the sequence
`put(a,1); put(b,2); get(a); get(a); put(c,3)` on a capacity-2 LFU level
evicts exactly `b`, new keys start at frequency 0, hits increment by 1
(`a` ends at 2), and an overwrite of `a` preserves its frequency 2; yet on a
capacity-1 LFU level holding the falsy key `""` at the unique minimum
frequency, eviction removes nothing — `""` is still present afterwards and
the store has grown to 2 entries. -/
theorem lfu_frequency_semantics_and_falsy_eviction :
    (getLvl c8e 0).cache = [(some "a", some "1"), (some "c", some "3")] ∧
    (getLvl c8e 0).accessCount = [(some "a", 2), (some "c", 0)] ∧
    mapGet (getLvl c8h 0).accessCount (some "a") = some 2 ∧
    mapHas (getLvl c8f2 0).cache (some "") = true ∧
    mapGet (getLvl c8f2 0).accessCount (some "") = some 0 ∧
    mapSize (getLvl c8f2 0).cache = 2 := by
  refine ⟨by decide, by decide, by decide, by decide, by decide, by decide⟩

end MLC

namespace MLC

/-- Claim C4 as amended: `CacheLevel.put(k, v)` inserts or overwrites the
entry for `k` (after any successful single-level `put`, `k` maps to `v`),
but the eviction step runs whenever the store's size is at least the
capacity at the start of the call — even when `k` is already present — and
the evicted entry is not returned to the caller (`put` returns nothing): it
is passed directly to the lower level's `put` when a lower level exists.
The second conjunct exhibits this generically: overwriting the sole key `a`
of a full capacity-1 LRU level pushes the old entry `(a, w)` into the lower
level while the upper level ends up with `(a, v)`. -/
theorem put_inserts_and_forwards_evictions :
    (∀ (fuel : Nat) (sz : Int) (pol : String) (cache : List (Key × Val))
        (acc : List (Key × Nat)) (k : Key) (v : Val),
        ∃ st', levelPut (Nat.succ fuel) 0 k v ⟨[⟨sz, pol, cache, acc, none⟩], [0], [], 0⟩
            = Res.ok () st' ∧ mapGet (getLvl st' 0).cache k = some v) ∧
    (∀ (fuel : Nat) (a v w : String),
        levelPut (Nat.succ (Nat.succ fuel)) 0 (some a) (some v)
            ⟨[⟨1, "LRU", [(some a, some w)], [], some 1⟩, ⟨1, "LRU", [], [], none⟩],
              [0, 1], [], 0⟩
          = Res.ok () ⟨[⟨1, "LRU", [(some a, some v)], [], some 1⟩,
              ⟨1, "LRU", [(some a, some w)], [], none⟩], [0, 1], [], 2⟩) := by
  constructor
  · intro fuel sz pol cache acc k v
    rw [levelPut]
    have hacq : acquire (⟨[⟨sz, pol, cache, acc, none⟩], [0], [], 0⟩ : St) 0
        = some ⟨[⟨sz, pol, cache, acc, none⟩], [0], [0], 1⟩ := rfl
    rw [hacq]
    dsimp only
    have hlvl : getLvl (⟨[⟨sz, pol, cache, acc, none⟩], [0], [0], 1⟩ : St) 0
        = ⟨sz, pol, cache, acc, none⟩ := rfl
    rw [hlvl]
    dsimp only
    by_cases hfull : sz ≤ (mapSize cache : Int)
    · rw [if_pos hfull]
      cases hev : (evictLevel ⟨sz, pol, cache, acc, none⟩).1 with
      | some e =>
        dsimp only
        split
        · exact ⟨_, rfl, mapGet_mapSet_self _ k v⟩
        · exact ⟨_, rfl, mapGet_mapSet_self _ k v⟩
      | none =>
        dsimp only
        split
        · exact ⟨_, rfl, mapGet_mapSet_self _ k v⟩
        · exact ⟨_, rfl, mapGet_mapSet_self _ k v⟩
    · rw [if_neg hfull]
      dsimp only
      split
      · exact ⟨_, rfl, mapGet_mapSet_self _ k v⟩
      · exact ⟨_, rfl, mapGet_mapSet_self _ k v⟩
  · intro fuel a v w
    have hbeq : ((some a : Key) == (some a : Key)) = true := by simp
    have hev : evictLevel ⟨1, "LRU", [(some a, some w)], [], some 1⟩
        = (some ⟨some a, some w⟩, ⟨1, "LRU", [], [], some 1⟩) := by
      rw [evictLevel]
      simp [mapGet, mapDelete, List.find?, hbeq]
    rw [levelPut]
    have hacq : acquire
        (⟨[⟨1, "LRU", [(some a, some w)], [], some 1⟩, ⟨1, "LRU", [], [], none⟩],
          [0, 1], [], 0⟩ : St) 0
        = some ⟨[⟨1, "LRU", [(some a, some w)], [], some 1⟩, ⟨1, "LRU", [], [], none⟩],
            [0, 1], [0], 1⟩ := rfl
    rw [hacq]
    dsimp only
    have hlvl : getLvl
        (⟨[⟨1, "LRU", [(some a, some w)], [], some 1⟩, ⟨1, "LRU", [], [], none⟩],
          [0, 1], [0], 1⟩ : St) 0
        = ⟨1, "LRU", [(some a, some w)], [], some 1⟩ := rfl
    rw [hlvl]
    dsimp only
    rw [if_pos (by simp [mapSize] :
      (1 : Int) ≤ (mapSize [((some a : Key), (some w : Val))] : Int))]
    rw [hev]
    dsimp only
    rw [levelPut]
    have hset : setLvl
        (⟨[⟨1, "LRU", [(some a, some w)], [], some 1⟩, ⟨1, "LRU", [], [], none⟩],
          [0, 1], [0], 1⟩ : St) 0 ⟨1, "LRU", [], [], some 1⟩
        = ⟨[⟨1, "LRU", [], [], some 1⟩, ⟨1, "LRU", [], [], none⟩], [0, 1], [0], 1⟩ := rfl
    rw [hset]
    have hacq2 : acquire
        (⟨[⟨1, "LRU", [], [], some 1⟩, ⟨1, "LRU", [], [], none⟩],
          [0, 1], [0], 1⟩ : St) 1
        = some ⟨[⟨1, "LRU", [], [], some 1⟩, ⟨1, "LRU", [], [], none⟩],
            [0, 1], [1, 0], 2⟩ := rfl
    rw [hacq2]
    dsimp only
    have hlvl2 : getLvl
        (⟨[⟨1, "LRU", [], [], some 1⟩, ⟨1, "LRU", [], [], none⟩],
          [0, 1], [1, 0], 2⟩ : St) 1
        = ⟨1, "LRU", [], [], none⟩ := rfl
    rw [hlvl2]
    dsimp only
    rw [if_neg (by simp [mapSize] :
      ¬ ((1 : Int) ≤ (mapSize ([] : List (Key × Val)) : Int)))]
    rfl

/-- Claim C9 (confirmed): `addCacheLevel` succeeds exactly when the policy is
`LRU` or `LFU` (nothing else — in particular the capacity — is validated),
`removeCacheLevel` succeeds exactly when `0 <= index < levels.length`, both
validations happen before any mutation (the embedding returns the error
without constructing a new state), and the `get`/`put` entry points never
surface either domain-error message — the only exception they can produce is
the `TypeError` of a `put` on an empty chain. -/
theorem validation_iff_and_no_domain_errors :
    (∀ (st : St) (sz : Int) (pol : String),
        isOkE (addCacheLevel st sz pol) = true ↔ (pol = "LRU" ∨ pol = "LFU")) ∧
    (∀ (st : St) (level : Int),
        isOkE (removeCacheLevel st level) = true ↔
          (0 ≤ level ∧ level < (st.cacheLevels.length : Int))) ∧
    (∀ (fuel : Nat) (k : Key) (st : St),
        isExnMsg (chainGet fuel st k) "Eviction policy must be LRU or LFU" = false ∧
        isExnMsg (chainGet fuel st k) "Invalid cache level index" = false) ∧
    (∀ (fuel : Nat) (k : Key) (v : Val) (st : St),
        isExnMsg (chainPut fuel st k v) "Eviction policy must be LRU or LFU" = false ∧
        isExnMsg (chainPut fuel st k v) "Invalid cache level index" = false) := by
  refine ⟨?_, ?_, ?_, ?_⟩
  · intro st sz pol
    by_cases h : pol ≠ "LRU" ∧ pol ≠ "LFU"
    · rw [addCacheLevel, if_pos h]
      simp only [isOkE]
      constructor
      · intro hfalse; exact absurd hfalse (by simp)
      · intro hor; exact absurd hor (by tauto)
    · rw [addCacheLevel, if_neg h]
      simp only [isOkE]
      constructor
      · intro _
        by_cases h1 : pol = "LRU"
        · exact Or.inl h1
        · right
          by_cases h2 : pol = "LFU"
          · exact h2
          · exact absurd ⟨h1, h2⟩ h
      · intro _; trivial
  · intro st level
    by_cases h : 0 ≤ level ∧ level < (st.cacheLevels.length : Int)
    · rw [removeCacheLevel, if_pos h]
      simp only [isOkE]
      exact ⟨fun _ => h, fun _ => trivial⟩
    · rw [removeCacheLevel, if_neg h]
      simp only [isOkE]
      constructor
      · intro hfalse; exact absurd hfalse (by simp)
      · intro hcond; exact absurd hcond h
  · intro fuel k st
    constructor
    · cases hr : chainGet fuel st k with
      | ok a s => rfl
      | deadlock => rfl
      | exn m =>
        have hm := chainGet_exn_msg fuel st k m hr
        subst hm
        decide
      | fuelOut => rfl
    · cases hr : chainGet fuel st k with
      | ok a s => rfl
      | deadlock => rfl
      | exn m =>
        have hm := chainGet_exn_msg fuel st k m hr
        subst hm
        decide
      | fuelOut => rfl
  · intro fuel k v st
    constructor
    · cases hr : chainPut fuel st k v with
      | ok a s => rfl
      | deadlock => rfl
      | exn m =>
        have hm := chainPut_exn_msg fuel st k v m hr
        subst hm
        decide
      | fuelOut => rfl
    · cases hr : chainPut fuel st k v with
      | ok a s => rfl
      | deadlock => rfl
      | exn m =>
        have hm := chainPut_exn_msg fuel st k v m hr
        subst hm
        decide
      | fuelOut => rfl

/-- Witness for claim C9's theorem at concrete inputs: adding an `LRU` level
to the empty chain succeeds, adding a `FIFO` level fails, and removing index
0 from the empty chain fails. -/
theorem validation_iff_and_no_domain_errors_witness :
    isOkE (addCacheLevel emptySt 3 "LRU") = true ∧
    isOkE (addCacheLevel emptySt 3 "FIFO") = false ∧
    isOkE (removeCacheLevel emptySt 0) = false := by
  refine ⟨?_, ?_, ?_⟩
  · exact (validation_iff_and_no_domain_errors.1 emptySt 3 "LRU").mpr (Or.inl rfl)
  · have h := validation_iff_and_no_domain_errors.1 emptySt 3 "FIFO"
    cases hb : isOkE (addCacheLevel emptySt 3 "FIFO") with
    | false => rfl
    | true => exact absurd (h.mp hb) (by simp)
  · have h := validation_iff_and_no_domain_errors.2.1 emptySt 0
    cases hb : isOkE (removeCacheLevel emptySt 0) with
    | false => rfl
    | true => exact absurd (h.mp hb).2 (by decide)

/-- Claim C10 (confirmed): `addCacheLevel` performs no validation of the
capacity argument — for every integer size (0 and negatives included) a call
with a valid policy succeeds and appends one level id to the chain — and a
`put` on the capacity-0 level built by `addCacheLevel(0, "LRU")` still
stores the entry, leaving the store size 1 strictly greater than the
capacity 0. -/
theorem addCacheLevel_accepts_any_capacity :
    (∀ (st : St) (sz : Int),
        (∃ st', addCacheLevel st sz "LRU" = .ok st' ∧
            st'.cacheLevels = st.cacheLevels ++ [st.heap.length]) ∧
        (∃ st', addCacheLevel st sz "LFU" = .ok st' ∧
            st'.cacheLevels = st.cacheLevels ++ [st.heap.length])) ∧
    (getLvl c10b 0).size = 0 ∧
    (getLvl c10b 0).cache = [(some "k", some "v")] ∧
    ((getLvl c10b 0).size < (mapSize (getLvl c10b 0).cache : Int)) := by
  refine ⟨?_, by decide, by decide, by decide⟩
  intro st sz
  constructor
  · rw [addCacheLevel, if_neg (by simp)]
    exact ⟨_, rfl, rfl⟩
  · rw [addCacheLevel, if_neg (by simp)]
    exact ⟨_, rfl, rfl⟩

end MLC
